import Mathlib

/-!
Verification of the WallpaperChanger core subsystem: directory resolution
(`config_loader.Config.get_wallpaper_dirs`), the image pool listing and
round-robin selection (`state.next_wallpaper` / `state_manager.get_next_wallpaper`),
multi-monitor orchestration (`wallpaper.select_wallpapers`), state persistence
(`state.load` / `state.save`), run-cycle ordering (`wallpaper.main`) and
round-robin cleanup (`state_manager.cleanup_old_entries`).

The Python code is shallowly embedded: pure fragments become Lean functions,
filesystem and subprocess effects become explicit parameters (directory
listings as data, I/O success/failure flags, event traces), Python `int`
becomes `Int`, Python exceptions become `Except`/`Option` results.
-/

namespace WallpaperChanger

/-! ### Python string ordering (ordinal comparison on code points)

Python compares `str` values lexicographically by code point; `sorted` orders
ascending under that comparison.  `String`'s builtin order does not reduce in
the kernel, so the comparator is spelled out on the character lists. -/

def strListLe : List Char → List Char → Bool
  | [], _ => true
  | _ :: _, [] => false
  | c :: cs, d :: ds =>
    if c.toNat < d.toNat then true
    else if d.toNat < c.toNat then false
    else strListLe cs ds

def pyStrLe (a b : String) : Bool := strListLe a.toList b.toList

/-- Insert into an ascending run; together with `pySort` this models Python's
`sorted` (ascending, by ordinal string comparison). -/
def insertSorted (x : String) : List String → List String
  | [] => [x]
  | y :: ys => if pyStrLe x y then x :: y :: ys else y :: insertSorted x ys

def pySort : List String → List String
  | [] => []
  | x :: xs => insertSorted x (pySort xs)

/-! ### ImagePool: the listing built at the top of `next_wallpaper`
(`state.py` lines 151-168, identical in `state_manager.py`):
`sorted([f.name for f in directory.iterdir() if f.is_file() and f.suffix.lower() in extensions])` -/

/-- One entry of `directory.iterdir()`: its final name and whether `is_file()`
holds (subdirectories and symlinks-to-directories have `isFile = false`). -/
structure DirEntry where
  name : String
  isFile : Bool
deriving DecidableEq, Repr

/-- Python `str.lower` restricted to ASCII case folding. -/
def strLower (s : String) : String := String.mk (s.toList.map Char.toLower)

/-- Python `pathlib.PurePath.suffix`: the last dot-suffix of the name, empty
when the only dot is leading or trailing or there is none. -/
def pySuffix (name : String) : String :=
  let cs := name.toList
  match ((List.range cs.length).filter (fun i => cs.getD i ' ' = '.')).getLast? with
  | some i => if 0 < i ∧ i + 1 < cs.length then String.mk (cs.drop i) else ""
  | none => ""

/-- Python's `in` on a list of strings. -/
def strMem (x : String) : List String → Bool
  | [] => false
  | y :: ys => if x = y then true else strMem x ys

/-- The filter condition of the listing: `f.suffix.lower() in extensions`.
Only the file's own suffix is lowercased; the configured entries are matched
verbatim. -/
def extMatches (exts : List String) (name : String) : Bool :=
  strMem (strLower (pySuffix name)) exts

/-- The claim's reading of the filter for C8, modelled from the spec's words:
extension matching is case-insensitive on both the file's suffix and the
configured entry. -/
def specExtMatches (exts : List String) (name : String) : Bool :=
  strMem (strLower (pySuffix name)) (exts.map strLower)

/-- The sorted pool of eligible filenames of one directory. -/
def listImages (entries : List DirEntry) (exts : List String) : List String :=
  pySort ((entries.filter (fun e => e.isFile && extMatches exts e.name)).map DirEntry.name)

/-- Python `str.split(",")` on the underlying characters. -/
def splitCommaChars : List Char → List (List Char)
  | [] => [[]]
  | c :: cs =>
    let rest := splitCommaChars cs
    if c = ',' then [] :: rest
    else
      match rest with
      | [] => [[c]]
      | r :: rs => (c :: r) :: rs

/-- Python `str.strip` (whitespace at both ends). -/
def stripChars (cs : List Char) : List Char :=
  ((cs.dropWhile Char.isWhitespace).reverse.dropWhile Char.isWhitespace).reverse

/-- Normalization done by `config_loader._load_image_extensions`: split the configured
string on commas, strip each piece, and prepend a dot when missing. -/
def normalizeExtensions (s : String) : List String :=
  (splitCommaChars s.toList).map (fun e =>
    let e' := stripChars e
    String.mk (match e' with
      | '.' :: _ => e'
      | _ => '.' :: e'))

/-! ### Directory resolution (`config_loader.Config.get_wallpaper_dirs`) -/

/-- Output of resolution: `{'primary': ..., 'left'?: ...}`. -/
structure ResolvedDirs where
  primary : String
  left : Option String
deriving DecidableEq, Repr

/-- The fifteen optional directory fields of `DirectoryConfig`. -/
structure DirectoryConfig where
  workday_light_primary : Option String := none
  workday_light_left : Option String := none
  workday_dark_primary : Option String := none
  workday_dark_left : Option String := none
  holiday_light_primary : Option String := none
  holiday_light_left : Option String := none
  holiday_dark_primary : Option String := none
  holiday_dark_left : Option String := none
  workday_primary : Option String := none
  workday_left : Option String := none
  holiday_primary : Option String := none
  holiday_left : Option String := none
  primary : Option String := none
  left : Option String := none
  sunday : Option String := none
deriving DecidableEq, Repr

/-- Model of `Config._build_dir_dict`: the `left` key is included only when set. -/
def buildDirDict (primary : String) (left : Option String) : ResolvedDirs :=
  ⟨primary, left⟩

/-- The basic (legacy) tier of `get_wallpaper_dirs` (lines 128-135):
`if is_holiday and dirs.sunday: return {sunday}`, then `if dirs.primary:
return {primary, left?}`, else raise. -/
def getWallpaperDirsBasic (c : DirectoryConfig) (isHoliday : Bool) :
    Except String ResolvedDirs :=
  match (if isHoliday then c.sunday else none) with
  | some s => .ok (buildDirDict s none)
  | none =>
    match c.primary with
    | some p => .ok (buildDirDict p c.left)
    | none => .error "No valid wallpaper directories configured"

/-- The simple work/holiday tier (lines 118-126), falling through to the basic
tier. -/
def getWallpaperDirsLower (c : DirectoryConfig) (isHoliday : Bool) :
    Except String ResolvedDirs :=
  if isHoliday then
    match c.holiday_primary with
    | some p => .ok (buildDirDict p c.holiday_left)
    | none => getWallpaperDirsBasic c isHoliday
  else
    match c.workday_primary with
    | some p => .ok (buildDirDict p c.workday_left)
    | none => getWallpaperDirsBasic c isHoliday

/-- Model of `Config.get_wallpaper_dirs`: time-based tier first (lines 97-116), then
the simple tier, then the basic tier. -/
def getWallpaperDirs (c : DirectoryConfig) (isHoliday isDay : Bool) :
    Except String ResolvedDirs :=
  if isHoliday then
    if isDay then
      match c.holiday_light_primary with
      | some p => .ok (buildDirDict p c.holiday_light_left)
      | none => getWallpaperDirsLower c isHoliday
    else
      match c.holiday_dark_primary with
      | some p => .ok (buildDirDict p c.holiday_dark_left)
      | none => getWallpaperDirsLower c isHoliday
  else
    if isDay then
      match c.workday_light_primary with
      | some p => .ok (buildDirDict p c.workday_light_left)
      | none => getWallpaperDirsLower c isHoliday
    else
      match c.workday_dark_primary with
      | some p => .ok (buildDirDict p c.workday_dark_left)
      | none => getWallpaperDirsLower c isHoliday

/-- The result of the time-based tier viewed on its own. -/
def timeTier (c : DirectoryConfig) (isHoliday isDay : Bool) : Option ResolvedDirs :=
  if isHoliday then
    if isDay then c.holiday_light_primary.map (fun p => buildDirDict p c.holiday_light_left)
    else c.holiday_dark_primary.map (fun p => buildDirDict p c.holiday_dark_left)
  else
    if isDay then c.workday_light_primary.map (fun p => buildDirDict p c.workday_light_left)
    else c.workday_dark_primary.map (fun p => buildDirDict p c.workday_dark_left)

/-- The result of the simple work/holiday tier viewed on its own. -/
def simpleTier (c : DirectoryConfig) (isHoliday : Bool) : Option ResolvedDirs :=
  if isHoliday then c.holiday_primary.map (fun p => buildDirDict p c.holiday_left)
  else c.workday_primary.map (fun p => buildDirDict p c.workday_left)

/-- The basic tier exactly as the code runs it: `sunday` is consulted only on
holidays, and `primary` is a fallback on holidays as well. -/
def basicTier (c : DirectoryConfig) (isHoliday : Bool) : Option ResolvedDirs :=
  match (if isHoliday then c.sunday else none) with
  | some s => some (buildDirDict s none)
  | none => c.primary.map (fun p => buildDirDict p c.left)

/-- The basic tier as claim C3 words it, modelled from the spec: on a holiday
only `sunday` is tried; `primary` (plus optional `left`) is tried only on
non-holidays. -/
def basicTierSpec (c : DirectoryConfig) (isHoliday : Bool) : Option ResolvedDirs :=
  if isHoliday then c.sunday.map (fun s => buildDirDict s none)
  else c.primary.map (fun p => buildDirDict p c.left)

/-! ### Round-robin selection (`state.next_wallpaper`, lines 132-241, identical
to `state_manager.get_next_wallpaper`) -/

/-- One entry of the persisted `round_robin` mapping: the last-seen sorted
image list and the cursor.  The position is a Python `int`, so `Int`. -/
structure RREntry where
  images : List String
  position : Int
deriving DecidableEq, Repr

/-- The `round_robin` dict, keyed by resolved directory path. -/
abbrev RRMap := List (String × RREntry)

def rrFind : RRMap → String → Option RREntry
  | [], _ => none
  | (k, v) :: rest, key => if k = key then some v else rrFind rest key

def rrSet : RRMap → String → RREntry → RRMap
  | [], key, v => [(key, v)]
  | (k, w) :: rest, key, v =>
    if k = key then (key, v) :: rest else (k, w) :: rrSet rest key v

/-- Python list indexing `l[i]` on ints: nonnegative indices from the front,
negative indices from the back, `none` for `IndexError`. -/
def pyGet (l : List String) (i : Int) : Option String :=
  if 0 ≤ i then
    if i < (l.length : Int) then l.get? i.toNat else none
  else
    if -(l.length : Int) ≤ i then l.get? (i + (l.length : Int)).toNat else none

/-- The collision-avoidance loop of `next_wallpaper` (lines 217-221):
`while selected in used_images and attempts < len(all_images): position =
(position + 1) % len(all_images); selected = all_images[position]`.  The fuel
argument is the remaining attempt budget. -/
def skipUsed (images used : List String) : Nat → Int → String → Int × String
  | 0, pos, sel => (pos, sel)
  | fuel + 1, pos, sel =>
    if strMem sel used then
      let pos2 : Int := (pos + 1) % (images.length : Int)
      skipUsed images used fuel pos2 (images.getD pos2.toNat "")
    else (pos, sel)

/-- The ambient filesystem and random oracle of one run: which paths are
directories, their listings, the configured extensions, and the index chooser
standing in for `random.choice` (any value models some random outcome). -/
structure Env where
  isDir : String → Bool
  listing : String → List DirEntry
  exts : List String
  choose : List String → Nat

/-- The image pool `next_wallpaper` computes for a directory. -/
def selPool (env : Env) (dir : String) : List String :=
  listImages (env.listing dir) env.exts

/-- Result of one `next_wallpaper` call: the selected filename (`none` models
returning `None`), the round-robin map afterwards, and `used_images`
afterwards. -/
structure NWOut where
  result : Option String
  rr : Option RRMap
  used : List String
deriving Repr

/-- Lines 186-192: initialize the directory's round-robin entry if absent. -/
def rrInit (allImages : List String) (dir : String) (rr0 : RRMap) : RRMap :=
  match rrFind rr0 dir with
  | none => rrSet rr0 dir ⟨allImages, 0⟩
  | some _ => rr0

/-- Lines 194-203: reset the entry when the directory contents changed,
returning the current entry and the map. -/
def rrResetPair (allImages : List String) (dir : String) (rr1 : RRMap) :
    RREntry × RRMap :=
  match (rrFind rr1 dir).getD ⟨allImages, 0⟩ with
  | e1 =>
    if e1.images = allImages then (e1, rr1)
    else (⟨allImages, 0⟩, rrSet rr1 dir ⟨allImages, 0⟩)

/-- Lines 205-211: reset a cursor at or past the end of the pool to 0
(positions below 0 are NOT touched). -/
def rrClampPair (allImages : List String) (dir : String) (p : RREntry × RRMap) :
    Int × RRMap :=
  if (allImages.length : Int) ≤ p.1.position
  then ((0 : Int), rrSet p.2 dir ⟨allImages, 0⟩)
  else (p.1.position, p.2)

/-- The round-robin branch of `next_wallpaper` (lines 183-237): initialize
the directory's entry if absent, reset it when the directory contents
changed, clamp a too-large cursor to 0, select at the cursor (possibly
skipping already-used images), then advance the persisted cursor by one
modulo the pool size.  A `none` result is the caught `IndexError`. -/
def statefulSelect (allImages : List String) (dir : String) (rr0 : RRMap)
    (used : List String) : NWOut :=
  match rrClampPair allImages dir (rrResetPair allImages dir (rrInit allImages dir rr0)) with
  | (pos0, rr3) =>
    match pyGet allImages pos0 with
    | none => ⟨none, some rr3, used⟩
    | some sel0 =>
      match skipUsed allImages used allImages.length pos0 sel0 with
      | (posF, sel) =>
        ⟨some sel,
         some (rrSet rr3 dir ⟨allImages, (posF + 1) % (allImages.length : Int)⟩),
         used ++ [sel]⟩

/-- The random branch of `next_wallpaper` (lines 170-181): choose among the
images not yet used this run, falling back to the whole pool when all are
used. -/
def randomSelect (env : Env) (allImages : List String) (used : List String) : NWOut :=
  let avail0 := allImages.filter (fun img => !strMem img used)
  let avail := if avail0 = [] then allImages else avail0
  let sel := avail.getD (env.choose avail % avail.length) ""
  ⟨some sel, none, used ++ [sel]⟩

/-- Model of `next_wallpaper(directory, extensions, state, used_images)`.  Directory
keys are taken to be already-resolved path strings (`str(directory.resolve())`
is modelled as the identity). -/
def nextWallpaper (env : Env) (dir : String) (st : Option RRMap)
    (used : List String) : NWOut :=
  if env.isDir dir = false then ⟨none, st, used⟩
  else
    let allImages := selPool env dir
    if allImages = [] then ⟨none, st, used⟩
    else
      match st with
      | none => randomSelect env allImages used
      | some rr0 => statefulSelect allImages dir rr0 used

/-- Runs `n` consecutive stateful calls for one directory, each with a fresh empty
`used_images` list: the selections in order, and the final state. -/
def runCalls (env : Env) (dir : String) :
    Nat → Option RRMap → List (Option String) × Option RRMap
  | 0, st => ([], st)
  | n + 1, st =>
    let out := nextWallpaper env dir st []
    let rest := runCalls env dir n out.rr
    (out.result :: rest.1, rest.2)

/-! ### Multi-monitor orchestration (`wallpaper.select_wallpapers`,
lines 178-230) -/

/-- Directory used for monitor index `idx`:
`if "left" in wallpaper_dirs and idx % 2 == 1: left else primary`. -/
def selectDirFor (dirs : ResolvedDirs) (idx : Nat) : String :=
  match dirs.left with
  | some l => if idx % 2 = 1 then l else dirs.primary
  | none => dirs.primary

/-- Result of `select_wallpapers`: the selected `(directory, filename)` pairs
in monitor order, with the threaded state and `used_images`. -/
structure SelOut where
  paths : List (String × String)
  rr : Option RRMap
  used : List String
deriving Repr

def selectGo (env : Env) (dirs : ResolvedDirs) :
    List Nat → Option RRMap → List String → SelOut
  | [], st, used => ⟨[], st, used⟩
  | idx :: rest, st, used =>
    let out := nextWallpaper env (selectDirFor dirs idx) st used
    let tail := selectGo env dirs rest out.rr out.used
    match out.result with
    | some s => ⟨(selectDirFor dirs idx, s) :: tail.paths, tail.rr, tail.used⟩
    | none => ⟨tail.paths, tail.rr, tail.used⟩

/-- Model of `select_wallpapers` after directory resolution: one `next_wallpaper` call
per monitor index, sharing one `used_images` list; failed draws are skipped. -/
def selectWallpapers (env : Env) (dirs : ResolvedDirs) (monitorCount : Nat)
    (st : Option RRMap) : SelOut :=
  selectGo env dirs (List.range monitorCount) st []

/-! ### Persisted state documents (`state.load` / `state.save`)

The state file holds JSON; the standard-library `json.dump`/`json.loads` codec
is modelled as the identity on parsed JSON values, so file contents are
`JValue`s.  JSON numbers are modelled as integers (the only numbers the
subsystem ever writes). -/

inductive JValue where
  | null
  | bool (b : Bool)
  | num (n : Int)
  | str (s : String)
  | arr (xs : List JValue)
  | obj (fields : List (String × JValue))
deriving Repr

/-- Python `==` between a JSON value and a `str`. -/
def jvalEqStr (j : JValue) (s : String) : Bool :=
  match j with
  | .str t => t = s
  | _ => false

/-- Lookup in a parsed JSON object; on duplicate keys `json.loads` keeps the
last occurrence. -/
def jLookup : List (String × JValue) → String → Option JValue
  | [], _ => none
  | (k', v) :: rest, k =>
    match jLookup rest k with
    | some v' => some v'
    | none => if k' = k then some v else none

def hasKey (fields : List (String × JValue)) (k : String) : Bool :=
  fields.any (fun kv => kv.1 = k)

/-- Does one needle occur as a contiguous substring of the haystack?  Models
Python's `in` on `str`. -/
def startsWithChars : List Char → List Char → Bool
  | [], _ => true
  | _ :: _, [] => false
  | a :: as', b :: bs => a = b && startsWithChars as' bs

def isSubstr (needle hay : String) : Bool :=
  hay.toList.tails.any (startsWithChars needle.toList)

/-- Model of `_validate_round_robin` on one entry value: a dict containing `images`
(a list) and `position` (an int; Python's `isinstance(x, int)` also accepts
booleans). -/
def validRREntry (v : JValue) : Bool :=
  match v with
  | .obj fields =>
    hasKey fields "images" && hasKey fields "position" &&
    (match jLookup fields "images" with
     | some (.arr _) => true
     | _ => false) &&
    (match jLookup fields "position" with
     | some (.num _) => true
     | some (.bool _) => true
     | _ => false)
  | _ => false

def requiredFields : List String := ["version", "current_wallpapers", "round_robin"]

/-- Model of `_validate` applied to a parsed JSON dict. -/
def validateObj (fields : List (String × JValue)) : Bool :=
  (requiredFields.all (hasKey fields)) &&
  (match jLookup fields "version" with
   | some (.str _) => true
   | _ => false) &&
  (match jLookup fields "current_wallpapers" with
   | some (.obj _) => true
   | _ => false) &&
  (match jLookup fields "round_robin" with
   | some (.obj rr) => rr.all (fun kv => validRREntry kv.2)
   | _ => false)

/-- Model of `_validate` on an arbitrary parsed JSON value.  `json.loads` may return a
non-dict: `field not in state` then does a substring test (strings), an
element test (lists), or raises `TypeError` (null/bool/number); when every
required name passes that test, the subsequent `state["version"]` indexing of
a string or list raises `TypeError` as well.  `Except.error ()` is a
`TypeError` escaping `_validate`. -/
def validateState (j : JValue) : Except Unit Bool :=
  match j with
  | .obj fields => .ok (validateObj fields)
  | .str s =>
    if requiredFields.all (fun f => isSubstr f s) then .error () else .ok false
  | .arr xs =>
    if requiredFields.all (fun f => xs.any (fun v => jvalEqStr v f)) then .error ()
    else .ok false
  | .null => .error ()
  | .bool _ => .error ()
  | .num _ => .error ()

/-- Model of `_initialize` / `initialize_state`, as the JSON document `save` writes. -/
def initState : JValue :=
  .obj [("version", .str "1.0"), ("last_run", .null),
        ("current_wallpapers", .obj []), ("round_robin", .obj [])]

/-- Python `pathlib.Path.with_suffix`: replace the suffix of the final path
component. -/
def pyWithSuffix (path suffix : String) : String :=
  let cs := path.toList
  let dirName : List Char × List Char :=
    match ((List.range cs.length).filter (fun i => cs.getD i ' ' = '/')).getLast? with
    | some i => (cs.take (i + 1), cs.drop (i + 1))
    | none => ([], cs)
  let stemLen := dirName.2.length - (pySuffix (String.mk dirName.2)).length
  String.mk dirName.1 ++ String.mk (dirName.2.take stemLen) ++ suffix

/-- What reading the state file yields: missing file, `PermissionError`,
`json.JSONDecodeError`, or a parsed JSON value. -/
inductive ReadResult where
  | absent
  | permissionDenied
  | decodeError
  | parsed (j : JValue)
deriving Repr

/-- Result of `load`: the returned state document and, when the corrupt-file
backup was attempted, the rename target `<stem>.corrupted.<timestamp>` (the
file is renamed aside, never deleted). -/
structure LoadResult where
  state : JValue
  backupTarget : Option String
deriving Repr

/-- Model of `state.load` (lines 28-73): absent or unreadable files yield a fresh
default state; malformed or schema-invalid files are renamed aside and a
fresh default state is returned; a `TypeError` raised inside `_validate`
escapes as `Except.error ()`. -/
def load (path ts : String) : ReadResult → Except Unit LoadResult
  | .absent => .ok ⟨initState, none⟩
  | .permissionDenied => .ok ⟨initState, none⟩
  | .decodeError => .ok ⟨initState, some (pyWithSuffix path (".corrupted." ++ ts))⟩
  | .parsed j =>
    match validateState j with
    | .error _ => .error ()
    | .ok true => .ok ⟨j, none⟩
    | .ok false => .ok ⟨initState, some (pyWithSuffix path (".corrupted." ++ ts))⟩

/-! ### `state.save` (lines 76-129), as an event trace -/

inductive SaveEvent where
  | mkdirParents
  | openTemp
  | lockTemp
  | writeTemp
  | unlockTemp
  | renameTempToReal
  | unlinkTemp
deriving DecidableEq, Repr

/-- Outcomes of the individual effectful steps of one `save` call:
`mkdirOk` (parent creation), `openOk` (opening `<stem>.tmp` for write),
`lockFree` (the non-blocking `flock` attempt), `writeOk` (`json.dump` +
`flush`), `renameOk` (the final atomic rename). -/
structure SaveEnv where
  mkdirOk : Bool
  openOk : Bool
  lockFree : Bool
  writeOk : Bool
  renameOk : Bool
deriving DecidableEq, Repr

/-- Models `save` as the pair of its return value and the trace of effects it
performs, in order.  `lockTemp` is recorded only when the lock is acquired;
`renameTempToReal` is the only event that touches the real state file;
`unlinkTemp` is the failure-path cleanup (attempted only when the temp file
exists). -/
def save (env : SaveEnv) : Bool × List SaveEvent :=
  if env.mkdirOk = false then (false, [.mkdirParents])
  else if env.openOk = false then (false, [.mkdirParents, .openTemp])
  else if env.lockFree = false then (false, [.mkdirParents, .openTemp])
  else if env.writeOk = false then
    (false, [.mkdirParents, .openTemp, .lockTemp, .unlinkTemp])
  else if env.renameOk = false then
    (false, [.mkdirParents, .openTemp, .lockTemp, .writeTemp, .unlockTemp, .unlinkTemp])
  else
    (true, [.mkdirParents, .openTemp, .lockTemp, .writeTemp, .unlockTemp, .renameTempToReal])

/-- Composition of `save(path, state)` and `load(path)`: on a successful save the
file holds exactly the written document, otherwise its previous content
`prev` is unchanged. -/
def saveThenLoad (env : SaveEnv) (path ts : String) (j : JValue)
    (prev : ReadResult) : Except Unit LoadResult :=
  if (save env).1 then load path ts (.parsed j) else load path ts prev

/-! ### The update cycle (`wallpaper.main`, lines 296-375) -/

inductive RunEvent where
  | resolveDirs
  | selectW
  | updateSt
  | cleanupSt
  | applyWp
  | persistSt
deriving DecidableEq, Repr

/-- The externally observable inputs that steer one `main` run after the
configuration is loaded: whether state tracking and auto-cleanup are enabled,
the detected monitors, `XDG_SESSION_TYPE`, and the paths `select_wallpapers`
returns. -/
structure RunEnv where
  stateTracking : Bool
  autoCleanup : Bool
  monitors : List String
  displayServer : String
  selected : List String
deriving Repr

/-- The ordered trace of the core steps `main` performs: directory resolution
and selection (inside `select_wallpapers`), the shortfall check, state update
and optional cleanup, wallpaper application by display server, and the final
persist. -/
def mainTrace (env : RunEnv) : List RunEvent :=
  if env.monitors.length = 0 then []
  else
    [RunEvent.resolveDirs, RunEvent.selectW] ++
    (if env.selected.length ≠ env.monitors.length then []
     else
       (if env.stateTracking then
          [RunEvent.updateSt] ++ (if env.autoCleanup then [RunEvent.cleanupSt] else [])
        else []) ++
       (if env.displayServer = "wayland" ∨ env.displayServer = "x11" then
          [RunEvent.applyWp] ++ (if env.stateTracking then [RunEvent.persistSt] else [])
        else []))

/-- Greedy subsequence test: `isOrderedSub tr master = true` iff `tr` occurs
inside `master` in order (the standard subsequence check), used to state that
an event trace respects a reference ordering. -/
def isOrderedSub {α : Type} [DecidableEq α] : List α → List α → Bool
  | [], _ => true
  | _ :: _, [] => false
  | e :: tr, m :: master =>
    if e = m then isOrderedSub tr master else isOrderedSub (e :: tr) master

/-- A schema-valid state document with populated `current_wallpapers` and
`round_robin`, used to instantiate the persistence theorems. -/
def jPop : JValue :=
  .obj [("version", .str "1.0"),
        ("last_run", .str "2026-01-01T09:00:00"),
        ("current_wallpapers", .obj
          [("eDP-1", .obj [("filename", .str "a.jpg"),
                           ("timestamp", .str "2026-01-01T09:00:00")]),
           ("HDMI-1", .obj [("filename", .str "b.jpg"),
                            ("timestamp", .str "2026-01-01T09:00:00")])]),
        ("round_robin", .obj
          [("/w", .obj [("images", .arr [.str "a.jpg", .str "b.jpg"]),
                        ("position", .num 1)])])]

/-! ### Cleanup (`state_manager.cleanup_old_entries`, lines 354-378) -/

/-- The loaded state document as `cleanup_old_entries` sees it.
`current_wallpapers` maps a monitor name to its `(filename, timestamp)`. -/
structure PState where
  version : String
  last_run : Option String
  current_wallpapers : List (String × String × String)
  round_robin : RRMap
deriving DecidableEq, Repr

/-- Model of `cleanup_old_entries(state, max_age_days)`.  `isOld ts` abstracts
`datetime.fromisoformat(ts) < now - timedelta(days=max_age_days)`: `none`
models a parse failure (caught and ignored), `some b` the comparison result.
An empty `last_run` is falsy and returns immediately, like `None`. -/
def cleanupOldEntries (isOld : String → Option Bool) (st : PState) : PState :=
  match st.last_run with
  | none => st
  | some ts =>
    if ts = "" then st
    else
      match isOld ts with
      | none => st
      | some false => st
      | some true => { st with round_robin := [] }

/-- A small concrete run environment used to instantiate theorems: every path
is a directory whose listing holds three eligible images (created out of
order), one file with a non-matching extension, and one subdirectory. -/
def envW : Env :=
  ⟨fun _ => true,
   fun _ => [⟨"b.jpg", true⟩, ⟨"c.png", true⟩, ⟨"a.jpg", true⟩,
             ⟨"notes.txt", true⟩, ⟨"sub", false⟩],
   [".jpg", ".png"],
   fun _ => 0⟩

/-! ## Theorems -/

/-! ### Ordering facts for `pySort` -/

theorem strListLe_total (as : List Char) : ∀ bs, strListLe as bs = true ∨ strListLe bs as = true := by
  induction as with
  | nil => intro bs; left; rfl
  | cons c cs ih =>
    intro bs
    cases bs with
    | nil => right; rfl
    | cons d ds =>
      simp only [strListLe]
      rcases Nat.lt_trichotomy c.toNat d.toNat with h | h | h
      · left; simp [h]
      · have h1 : ¬c.toNat < d.toNat := by omega
        have h2 : ¬d.toNat < c.toNat := by omega
        simpa [h1, h2] using ih ds
      · right; simp [h, Nat.lt_asymm h]

theorem strListLe_trans (as : List Char) :
    ∀ bs cs, strListLe as bs = true → strListLe bs cs = true → strListLe as cs = true := by
  induction as with
  | nil => intro bs cs _ _; rfl
  | cons a as' ih =>
    intro bs cs hab hbc
    cases bs with
    | nil => simp [strListLe] at hab
    | cons b bs' =>
      cases cs with
      | nil => simp [strListLe] at hbc
      | cons c cs' =>
        simp only [strListLe] at hab hbc ⊢
        by_cases h1 : a.toNat < b.toNat
        · by_cases h2 : b.toNat < c.toNat
          · have hac : a.toNat < c.toNat := by omega
            simp [hac]
          · by_cases h3 : c.toNat < b.toNat
            · simp [h2, h3] at hbc
            · have hac : a.toNat < c.toNat := by omega
              simp [hac]
        · by_cases h1' : b.toNat < a.toNat
          · simp [h1, h1'] at hab
          · by_cases h2 : b.toNat < c.toNat
            · have hac : a.toNat < c.toNat := by omega
              simp [hac]
            · by_cases h3 : c.toNat < b.toNat
              · simp [h2, h3] at hbc
              · have h4 : ¬a.toNat < c.toNat := by omega
                have h5 : ¬c.toNat < a.toNat := by omega
                simp [h1, h1'] at hab
                simp [h2, h3] at hbc
                simp only [h4, h5, if_false]
                exact ih _ _ hab hbc

theorem pyStrLe_total (a b : String) : pyStrLe a b = true ∨ pyStrLe b a = true :=
  strListLe_total a.toList b.toList

theorem pyStrLe_trans {a b c : String} (h1 : pyStrLe a b = true) (h2 : pyStrLe b c = true) :
    pyStrLe a c = true :=
  strListLe_trans a.toList b.toList c.toList h1 h2

theorem insertSorted_perm (x : String) (l : List String) :
    (insertSorted x l).Perm (x :: l) := by
  induction l with
  | nil => rfl
  | cons y ys ih =>
    simp only [insertSorted]
    by_cases h : pyStrLe x y = true
    · simp [h]
    · simp only [h, if_false]
      exact ((ih.cons y).trans (List.Perm.swap x y ys))

theorem pySort_perm (l : List String) : (pySort l).Perm l := by
  induction l with
  | nil => rfl
  | cons x xs ih => exact (insertSorted_perm x (pySort xs)).trans (ih.cons x)

theorem insertSorted_pairwise (x : String) (l : List String)
    (h : l.Pairwise (fun a b => pyStrLe a b = true)) :
    (insertSorted x l).Pairwise (fun a b => pyStrLe a b = true) := by
  induction l with
  | nil => simp [insertSorted]
  | cons y ys ih =>
    rcases List.pairwise_cons.mp h with ⟨hy, hys⟩
    simp only [insertSorted]
    by_cases hxy : pyStrLe x y = true
    · rw [if_pos hxy]
      refine List.pairwise_cons.mpr ⟨?_, h⟩
      intro z hz
      rcases List.mem_cons.mp hz with rfl | hz'
      · exact hxy
      · exact pyStrLe_trans hxy (hy z hz')
    · rw [if_neg hxy]
      refine List.pairwise_cons.mpr ⟨?_, ih hys⟩
      intro z hz
      rcases List.mem_cons.mp ((insertSorted_perm x ys).mem_iff.mp hz) with rfl | hz'
      · rcases pyStrLe_total z y with h' | h'
        · exact absurd h' hxy
        · exact h'
      · exact hy z hz'

theorem pySort_pairwise (l : List String) :
    (pySort l).Pairwise (fun a b => pyStrLe a b = true) := by
  induction l with
  | nil => simp [pySort]
  | cons x xs ih => exact insertSorted_pairwise x (pySort xs) ih

theorem strMem_iff (x : String) (l : List String) : strMem x l = true ↔ x ∈ l := by
  induction l with
  | nil => simp [strMem]
  | cons y ys ih =>
    by_cases h : x = y
    · simp [strMem, h]
    · simp [strMem, h, ih]

/-! ### The image pool -/

theorem mem_listImages (entries : List DirEntry) (exts : List String) (x : String) :
    x ∈ listImages entries exts ↔
      ∃ e ∈ entries, e.isFile = true ∧ extMatches exts e.name = true ∧ e.name = x := by
  unfold listImages
  rw [(pySort_perm _).mem_iff]
  simp only [List.mem_map, List.mem_filter, Bool.and_eq_true]
  constructor
  · rintro ⟨e, ⟨he, hf, hm⟩, rfl⟩
    exact ⟨e, he, hf, hm, rfl⟩
  · rintro ⟨e, he, hf, hm, rfl⟩
    exact ⟨e, ⟨he, hf, hm⟩, rfl⟩

theorem listImages_pairwise (entries : List DirEntry) (exts : List String) :
    (listImages entries exts).Pairwise (fun a b => pyStrLe a b = true) :=
  pySort_pairwise _

theorem listImages_nodup (entries : List DirEntry) (exts : List String)
    (h : (entries.map DirEntry.name).Nodup) : (listImages entries exts).Nodup := by
  unfold listImages
  rw [(pySort_perm _).nodup_iff]
  exact ((List.filter_sublist entries).map DirEntry.name).nodup h

/-- C8: the listing keeps exactly the regular files whose lowercased suffix is
a configured entry, and sorts ascending — but the configured entries are NOT
matched case-insensitively.  With the (leading-dot-normalized) configured
list `[".PNG"]`, the file `a.png` matches under the claim's case-insensitive
reading yet the code's listing is empty. -/
theorem c8_counterexample :
    listImages [⟨"a.png", true⟩] (normalizeExtensions ".PNG") = [] ∧
    specExtMatches (normalizeExtensions ".PNG") "a.png" = true ∧
    extMatches (normalizeExtensions ".PNG") "a.png" = false := by
  refine ⟨by decide, by decide, by decide⟩

/-- C8 (amended): for every directory listing and configured extension list,
the pool contains exactly the names of the regular entries whose lowercased
suffix verbatim equals some configured entry (case-insensitive in the file's
own extension only, case-sensitive in the configured entry), excludes
non-file entries, and is sorted ascending by ordinal comparison. -/
theorem c8_amended (entries : List DirEntry) (exts : List String) :
    (∀ x, x ∈ listImages entries exts ↔
      ∃ e ∈ entries, e.isFile = true ∧
        strMem (strLower (pySuffix e.name)) exts = true ∧ e.name = x) ∧
    (listImages entries exts).Pairwise (fun a b => pyStrLe a b = true) :=
  ⟨fun x => mem_listImages entries exts x, listImages_pairwise entries exts⟩

/-! ### Directory resolution (C3) -/

theorem getWallpaperDirs_eq_waterfall (c : DirectoryConfig) (h d : Bool) :
    getWallpaperDirs c h d =
      (match timeTier c h d with
       | some r => .ok r
       | none =>
         match simpleTier c h with
         | some r => .ok r
         | none =>
           match basicTier c h with
           | some r => .ok r
           | none => .error "No valid wallpaper directories configured") := by
  obtain ⟨wlp, wll, wdp, wdl, hlp, hll, hdp, hdl, wp, wl, hp, hl, p, l, s⟩ := c
  cases h <;> cases d <;> cases wlp <;> cases wdp <;> cases hlp <;> cases hdp <;>
    cases wp <;> cases hp <;> cases s <;> cases p <;> rfl

/-- C3: the claim's basic tier tries `sunday` on holidays and `primary` only
otherwise, with failure exactly when all three tiers produce nothing.  The
code instead falls back to `primary` on a holiday without a configured
`sunday` directory: with only `primary` set, all three tiers as the claim
reads them produce nothing for a holiday context, yet resolution succeeds
with `primary` instead of raising. -/
theorem c3_claim_counterexample :
    timeTier { primary := some "/pics" } true true = none ∧
    simpleTier { primary := some "/pics" } true = none ∧
    basicTierSpec { primary := some "/pics" } true = none ∧
    getWallpaperDirs { primary := some "/pics" } true true = .ok ⟨"/pics", none⟩ := by
  refine ⟨?_, ?_, ?_, ?_⟩ <;> rfl

/-- C3 (amended): resolution is the waterfall time-based tier, then simple
tier, then basic tier, where the basic tier returns `sunday` (left omitted)
when `is_holiday` and `sunday` is configured, and otherwise — on holidays
too — returns `primary` plus optional `left`; it raises
"No valid wallpaper directories configured" exactly when all three tiers, so
read, produce nothing for the given context. -/
theorem c3_resolution_waterfall (c : DirectoryConfig) (h d : Bool) :
    (getWallpaperDirs c h d =
      (match timeTier c h d with
       | some r => .ok r
       | none =>
         match simpleTier c h with
         | some r => .ok r
         | none =>
           match basicTier c h with
           | some r => .ok r
           | none => .error "No valid wallpaper directories configured")) ∧
    (getWallpaperDirs c h d = .error "No valid wallpaper directories configured" ↔
      timeTier c h d = none ∧ simpleTier c h = none ∧ basicTier c h = none) := by
  refine ⟨getWallpaperDirs_eq_waterfall c h d, ?_⟩
  rw [getWallpaperDirs_eq_waterfall c h d]
  cases ht : timeTier c h d <;> cases hs : simpleTier c h <;> cases hb : basicTier c h <;>
    simp

/-! ### Single stateful round-robin steps (C1) -/

theorem pyGet_nat (l : List String) (p : Nat) (hp : p < l.length) :
    pyGet l (p : Int) = some (l.getD p "") := by
  unfold pyGet
  have h0 : (0 : Int) ≤ (p : Int) := Int.natCast_nonneg p
  have h1 : (p : Int) < (l.length : Int) := by exact_mod_cast hp
  rw [if_pos h0, if_pos h1]
  simp [List.get?_eq_getElem?, List.getElem?_eq_getElem hp, List.getD_eq_getElem l "" hp]

theorem skipUsed_used_nil (images : List String) (fuel : Nat) (pos : Int) (sel : String) :
    skipUsed images [] fuel pos sel = (pos, sel) := by
  cases fuel with
  | zero => rfl
  | succ n => simp [skipUsed, strMem]

theorem rrFind_singleton (k : String) (v : RREntry) : rrFind [(k, v)] k = some v := by
  simp [rrFind]

theorem rrSet_singleton (k : String) (v w : RREntry) : rrSet [(k, w)] k v = [(k, v)] := by
  simp [rrSet]

theorem nextWallpaper_stateful (env : Env) (dir : String) (m : RRMap)
    (used : List String) (hdir : env.isDir dir = true) (hne : selPool env dir ≠ []) :
    nextWallpaper env dir (some m) used = statefulSelect (selPool env dir) dir m used := by
  simp [nextWallpaper, hdir, hne]

theorem statefulSelect_singleton (allImages : List String) (dir : String)
    (p : Nat) (hp : p < allImages.length) :
    statefulSelect allImages dir [(dir, ⟨allImages, (p : Int)⟩)] [] =
      ⟨some (allImages.getD p ""),
       some [(dir, ⟨allImages, (((p + 1) % allImages.length : Nat) : Int)⟩)],
       [allImages.getD p ""]⟩ := by
  have hclamp : ¬ ((allImages.length : Int) ≤ (p : Int)) := by
    rw [not_le]; exact_mod_cast hp
  have hcast : ((p : Int) + 1) % ((allImages.length : Int)) =
      (((p + 1) % allImages.length : Nat) : Int) := by
    rw [Int.natCast_mod]; push_cast; ring_nf
  simp only [statefulSelect, rrInit, rrResetPair, rrClampPair, rrFind_singleton,
    Option.getD_some]
  simp only [eq_self_iff_true, if_true, if_neg hclamp]
  rw [pyGet_nat _ p hp]
  simp only [skipUsed_used_nil, hcast, rrSet_singleton]
  simp

theorem statefulSelect_fresh (allImages : List String) (dir : String)
    (used : List String) :
    statefulSelect allImages dir [] used =
      statefulSelect allImages dir [(dir, ⟨allImages, (0 : Int)⟩)] used := by
  simp only [statefulSelect, rrInit, rrFind, rrSet, eq_self_iff_true, if_true]

theorem nextWallpaper_singleton_step (env : Env) (dir : String)
    (hdir : env.isDir dir = true) (hne : selPool env dir ≠ [])
    (p : Nat) (hp : p < (selPool env dir).length) :
    nextWallpaper env dir (some [(dir, ⟨selPool env dir, (p : Int)⟩)]) [] =
      ⟨some ((selPool env dir).getD p ""),
       some [(dir, ⟨selPool env dir, (((p + 1) % (selPool env dir).length : Nat) : Int)⟩)],
       [(selPool env dir).getD p ""]⟩ := by
  rw [nextWallpaper_stateful env dir _ [] hdir hne,
    statefulSelect_singleton (selPool env dir) dir p hp]

theorem runCalls_singleton (env : Env) (dir : String)
    (hdir : env.isDir dir = true) (hne : selPool env dir ≠ []) :
    ∀ (n p : Nat), p < (selPool env dir).length →
    runCalls env dir n (some [(dir, ⟨selPool env dir, (p : Int)⟩)]) =
      ((List.range n).map
         (fun j => some ((selPool env dir).getD ((p + j) % (selPool env dir).length) "")),
       some [(dir, ⟨selPool env dir, (((p + n) % (selPool env dir).length : Nat) : Int)⟩)]) := by
  intro n
  induction n with
  | zero =>
    intro p hp
    simp [runCalls, Nat.mod_eq_of_lt hp]
  | succ m ih =>
    intro p hp
    have hlen : 0 < (selPool env dir).length := List.length_pos.mpr hne
    have hp' : (p + 1) % (selPool env dir).length < (selPool env dir).length :=
      Nat.mod_lt _ hlen
    simp only [runCalls, nextWallpaper_singleton_step env dir hdir hne p hp]
    rw [ih ((p + 1) % (selPool env dir).length) hp']
    simp only [Prod.mk.injEq]
    refine ⟨?_, ?_⟩
    · rw [List.range_succ_eq_map, List.map_cons, List.map_map]
      congr 1
      · rw [Nat.add_zero, Nat.mod_eq_of_lt hp]
      · apply List.map_congr_left
        intro j _
        simp only [Function.comp_apply]
        rw [Nat.mod_add_mod]
        have harg : p + 1 + j = p + Nat.succ j := by omega
        rw [harg]
    · rw [Nat.mod_add_mod]
      have harg : p + 1 + m = p + (m + 1) := by omega
      rw [harg]

theorem runCalls_fresh (env : Env) (dir : String)
    (hdir : env.isDir dir = true) (hne : selPool env dir ≠ [])
    (n : Nat) (hn : 1 ≤ n) :
    runCalls env dir n (some []) =
      runCalls env dir n (some [(dir, ⟨selPool env dir, (0 : Int)⟩)]) := by
  cases n with
  | zero => omega
  | succ m =>
    simp only [runCalls, nextWallpaper_stateful env dir _ [] hdir hne,
      statefulSelect_fresh]

theorem range_map_getD (l : List String) :
    (List.range l.length).map (fun i => some (l.getD i "")) = l.map some := by
  induction l with
  | nil => rfl
  | cons a t ih =>
    rw [List.length_cons, List.range_succ_eq_map, List.map_cons, List.map_map]
    have htail : (List.range t.length).map
        ((fun i => some ((a :: t).getD i "")) ∘ Nat.succ) = t.map some := by
      rw [← ih]
      apply List.map_congr_left
      intro j _
      simp [List.getD_cons_succ]
    rw [htail]
    rfl

/-- C1: round-robin completeness.  For every existing directory with a
nonempty pool of distinctly-named entries and unchanged contents, starting
from a state with no entry for the directory, the first N stateful calls
(each with a fresh empty `used_images`) return exactly the pool in its sorted
order; call N+1 returns the first filename again; after each call k the
persisted cursor is k mod N (that is, position-of-pick + 1 mod N); and the
pool is ascending and duplicate-free. -/
theorem c1_round_robin_completeness (env : Env) (dir : String)
    (hdir : env.isDir dir = true)
    (hnodup : ((env.listing dir).map DirEntry.name).Nodup)
    (hne : selPool env dir ≠ []) :
    (runCalls env dir (selPool env dir).length (some [])).1 =
      (selPool env dir).map some ∧
    (runCalls env dir ((selPool env dir).length + 1) (some [])).1 =
      (selPool env dir).map some ++ [some ((selPool env dir).getD 0 "")] ∧
    (∀ k, 1 ≤ k → (runCalls env dir k (some [])).2 =
      some [(dir, ⟨selPool env dir, ((k % (selPool env dir).length : Nat) : Int)⟩)]) ∧
    (selPool env dir).Pairwise (fun a b => pyStrLe a b = true) ∧
    (selPool env dir).Nodup := by
  have hlen : 0 < (selPool env dir).length := List.length_pos.mpr hne
  have key : ∀ n, 1 ≤ n → runCalls env dir n (some []) =
      ((List.range n).map
         (fun j => some ((selPool env dir).getD (j % (selPool env dir).length) "")),
       some [(dir, ⟨selPool env dir, ((n % (selPool env dir).length : Nat) : Int)⟩)]) := by
    intro n hn
    rw [runCalls_fresh env dir hdir hne n hn]
    have h := runCalls_singleton env dir hdir hne n 0 hlen
    simpa using h
  have hNmap : (List.range (selPool env dir).length).map
      (fun j => some ((selPool env dir).getD (j % (selPool env dir).length) "")) =
      (selPool env dir).map some := by
    have hcg : (List.range (selPool env dir).length).map
        (fun j => some ((selPool env dir).getD (j % (selPool env dir).length) "")) =
        (List.range (selPool env dir).length).map
        (fun j => some ((selPool env dir).getD j "")) := by
      apply List.map_congr_left
      intro j hj
      rw [Nat.mod_eq_of_lt (List.mem_range.mp hj)]
    rw [hcg, range_map_getD]
  refine ⟨?_, ?_, ?_, listImages_pairwise _ _, listImages_nodup _ _ hnodup⟩
  · rw [key _ hlen]
    dsimp only
    rw [hNmap]
  · rw [key _ (by omega)]
    dsimp only
    rw [List.range_succ, List.map_append, hNmap]
    simp [Nat.mod_self]
  · intro k hk
    rw [key k hk]

/-- C1 witness: a directory with pool `["a.jpg", "b.jpg", "c.png"]` (created
out of order, with a non-image file and a subdirectory ignored). -/
theorem c1_round_robin_completeness_witness :
    (runCalls envW "/w" (selPool envW "/w").length (some [])).1 =
      (selPool envW "/w").map some ∧
    (runCalls envW "/w" 3 (some [])).1 = [some "a.jpg", some "b.jpg", some "c.png"] := by
  refine ⟨(c1_round_robin_completeness envW "/w" rfl (by decide) (by decide)).1, ?_⟩
  decide

/-! ### Cursor clamping (C7) -/

theorem pyGet_zero (l : List String) (hne : l ≠ []) :
    pyGet l 0 = some (l.getD 0 "") := by
  have h := pyGet_nat l 0 (List.length_pos.mpr hne)
  simpa using h

theorem pyGet_neg_in (l : List String) (p : Int)
    (h1 : -(l.length : Int) ≤ p) (h2 : p < 0) :
    pyGet l p = some (l.getD (p + (l.length : Int)).toNat "") := by
  unfold pyGet
  rw [if_neg (by omega), if_pos h1]
  have hlt : (p + (l.length : Int)).toNat < l.length := by omega
  simp [List.get?_eq_getElem?, List.getElem?_eq_getElem hlt,
    List.getD_eq_getElem l "" hlt]

theorem pyGet_neg_out (l : List String) (p : Int) (h : p < -(l.length : Int)) :
    pyGet l p = none := by
  unfold pyGet
  rw [if_neg (by omega), if_neg (by omega)]

theorem statefulSelect_singleton_int (allImages : List String) (dir : String)
    (p : Int) (hp : p < (allImages.length : Int)) :
    statefulSelect allImages dir [(dir, ⟨allImages, p⟩)] [] =
      (match pyGet allImages p with
       | none => ⟨none, some [(dir, ⟨allImages, p⟩)], []⟩
       | some sel0 =>
         ⟨some sel0,
          some [(dir, ⟨allImages, (p + 1) % (allImages.length : Int)⟩)],
          [sel0]⟩) := by
  have hclamp : ¬ ((allImages.length : Int) ≤ p) := by omega
  simp only [statefulSelect, rrInit, rrResetPair, rrClampPair, rrFind_singleton,
    Option.getD_some]
  simp only [eq_self_iff_true, if_true, if_neg hclamp]
  cases hpy : pyGet allImages p with
  | none => simp [hpy]
  | some sel0 => simp [hpy, skipUsed_used_nil, rrSet_singleton]

theorem statefulSelect_singleton_clamp (allImages : List String) (dir : String)
    (hne : allImages ≠ []) (p : Int) (hp : (allImages.length : Int) ≤ p) :
    statefulSelect allImages dir [(dir, ⟨allImages, p⟩)] [] =
      ⟨some (allImages.getD 0 ""),
       some [(dir, ⟨allImages, 1 % (allImages.length : Int)⟩)],
       [allImages.getD 0 ""]⟩ := by
  simp only [statefulSelect, rrInit, rrResetPair, rrClampPair, rrFind_singleton,
    Option.getD_some]
  simp only [eq_self_iff_true, if_true, if_pos hp]
  rw [pyGet_zero allImages hne]
  simp [skipUsed_used_nil, rrSet_singleton, zero_add]

/-- C7: the claim says every stored integer cursor (validation accepts any
int, including negatives) is clamped into `[0, len)` before selection, so a
filename at the clamped cursor is always returned.  The code only clamps
`position >= len`: with pool `["a.jpg", "b.jpg", "c.png"]` and the
schema-valid stored position `-4`, Python's `all_images[-4]` raises
`IndexError` and the call returns `None` — no filename at all. -/
theorem c7_claim_counterexample :
    validRREntry (JValue.obj
      [("images", .arr [.str "a.jpg", .str "b.jpg", .str "c.png"]),
       ("position", .num (-4))]) = true ∧
    (nextWallpaper envW "/w"
      (some [("/w", ⟨["a.jpg", "b.jpg", "c.png"], -4⟩)]) []).result = none := by
  exact ⟨by decide, by decide⟩

/-- C7 (amended): for a stored entry whose image list matches the pool and an
empty `used_images`, a cursor `p ≥ len` is reset to 0 and the first filename
is returned; `0 ≤ p < len` returns the filename at `p`; `-len ≤ p < 0` is NOT
clamped — Python negative indexing returns the filename at `len + p`; and
`p < -len` makes the selection fail and return `None`. -/
theorem c7_cursor_clamp (env : Env) (dir : String)
    (hdir : env.isDir dir = true) (hne : selPool env dir ≠ []) (p : Int) :
    (((selPool env dir).length : Int) ≤ p →
      (nextWallpaper env dir (some [(dir, ⟨selPool env dir, p⟩)]) []).result =
        some ((selPool env dir).getD 0 "")) ∧
    (0 ≤ p → p < ((selPool env dir).length : Int) →
      (nextWallpaper env dir (some [(dir, ⟨selPool env dir, p⟩)]) []).result =
        some ((selPool env dir).getD p.toNat "")) ∧
    (-((selPool env dir).length : Int) ≤ p → p < 0 →
      (nextWallpaper env dir (some [(dir, ⟨selPool env dir, p⟩)]) []).result =
        some ((selPool env dir).getD (p + ((selPool env dir).length : Int)).toNat "")) ∧
    (p < -((selPool env dir).length : Int) →
      (nextWallpaper env dir (some [(dir, ⟨selPool env dir, p⟩)]) []).result = none) := by
  rw [nextWallpaper_stateful env dir _ [] hdir hne]
  refine ⟨?_, ?_, ?_, ?_⟩
  · intro hp
    rw [statefulSelect_singleton_clamp _ dir hne p hp]
  · intro h0 hp
    rw [statefulSelect_singleton_int _ dir p hp]
    have hnat : p.toNat < (selPool env dir).length := by omega
    rw [show p = (p.toNat : Int) by omega, pyGet_nat _ p.toNat hnat]
    simp [sup_eq_left.mpr h0]
  · intro h1 h2
    rw [statefulSelect_singleton_int _ dir p (by omega),
      pyGet_neg_in _ p h1 h2]
  · intro hp
    rw [statefulSelect_singleton_int _ dir p (by omega),
      pyGet_neg_out _ p hp]

/-- C7 witness: with pool `["a.jpg", "b.jpg", "c.png"]`, position 7 is
clamped to 0 (`a.jpg`), while position -1 serves `c.png` from the end. -/
theorem c7_cursor_clamp_witness :
    (nextWallpaper envW "/w" (some [("/w", ⟨selPool envW "/w", 7⟩)]) []).result =
      some ((selPool envW "/w").getD 0 "") ∧
    (nextWallpaper envW "/w" (some [("/w", ⟨selPool envW "/w", -1⟩)]) []).result =
      some ((selPool envW "/w").getD
        ((-1 : Int) + ((selPool envW "/w").length : Int)).toNat "") := by
  refine ⟨(c7_cursor_clamp envW "/w" rfl (by decide) 7).1 (by decide),
    (c7_cursor_clamp envW "/w" rfl (by decide) (-1)).2.2.1 (by decide) (by decide)⟩

/-! ### Collision avoidance (C2) -/

theorem int_mod_shift (a b n : Int) : (a % n + b) % n = (a + b) % n := by
  conv_rhs => rw [Int.add_emod]
  conv_lhs => rw [Int.add_emod, Int.emod_emod_of_dvd a dvd_rfl]

theorem pyGet_mem (l : List String) (i : Int) (s : String)
    (h : pyGet l i = some s) : s ∈ l := by
  unfold pyGet at h
  split_ifs at h with h1 h2 h3
  · exact List.get?_mem h
  · exact List.get?_mem h

theorem skipUsed_mem (images used : List String) (hne : images ≠ []) :
    ∀ (fuel : Nat) (pos : Int) (sel : String), sel ∈ images →
      (skipUsed images used fuel pos sel).2 ∈ images := by
  intro fuel
  induction fuel with
  | zero => intro pos sel h; exact h
  | succ f ih =>
    intro pos sel h
    simp only [skipUsed]
    by_cases hs : strMem sel used = true
    · rw [if_pos hs]
      apply ih
      have hlen : 0 < images.length := List.length_pos.mpr hne
      have hmod : 0 ≤ (pos + 1) % (images.length : Int) :=
        Int.emod_nonneg _ (by exact_mod_cast Nat.pos_iff_ne_zero.mp hlen)
      have hmod2 : (pos + 1) % (images.length : Int) < (images.length : Int) :=
        Int.emod_lt_of_pos _ (by exact_mod_cast hlen)
      have hlt : ((pos + 1) % (images.length : Int)).toNat < images.length := by omega
      rw [List.getD_eq_getElem images "" hlt]
      exact List.getElem_mem hlt
    · rw [if_neg hs]
      exact h

theorem skipUsed_all_used (images used : List String) :
    ∀ (fuel : Nat) (pos : Int) (sel : String),
      (skipUsed images used fuel pos sel).2 ∈ used →
      sel ∈ used ∧ ∀ k : Nat, 1 ≤ k → k ≤ fuel →
        images.getD (((pos + k) % (images.length : Int)).toNat) "" ∈ used := by
  intro fuel
  induction fuel with
  | zero =>
    intro pos sel h
    exact ⟨h, fun k hk1 hk2 => by omega⟩
  | succ f ih =>
    intro pos sel h
    simp only [skipUsed] at h
    by_cases hs : strMem sel used = true
    · rw [if_pos hs] at h
      obtain ⟨hsel2, hrest⟩ := ih _ _ h
      refine ⟨(strMem_iff _ _).mp hs, ?_⟩
      intro k hk1 hk2
      rcases Nat.lt_or_ge k 2 with hk | hk
      · have hk' : k = 1 := by omega
        subst hk'
        simpa using hsel2
      · obtain ⟨k', rfl⟩ : ∃ k', k = k' + 1 := ⟨k - 1, by omega⟩
        have := hrest k' (by omega) (by omega)
        have harg : ((pos + 1) % (images.length : Int) + (k' : Int)) % (images.length : Int) =
            (pos + (k' + 1 : Nat)) % (images.length : Int) := by
          rw [int_mod_shift]
          congr 1
          push_cast
          ring
        rwa [harg] at this
    · rw [if_neg hs] at h
      exact absurd ((strMem_iff sel used).mpr h) hs

theorem skipUsed_exhausts (images used : List String) (hne : images ≠ [])
    (pos : Int) (sel : String)
    (h : (skipUsed images used images.length pos sel).2 ∈ used) :
    ∀ x ∈ images, x ∈ used := by
  intro x hx
  obtain ⟨hs0, hrest⟩ := skipUsed_all_used images used images.length pos sel h
  obtain ⟨j, hj, rfl⟩ := List.getElem_of_mem hx
  have hlen : 0 < images.length := List.length_pos.mpr hne
  have hN : (0 : Int) < (images.length : Int) := by exact_mod_cast hlen
  have hNne : (images.length : Int) ≠ 0 := by omega
  set N : Int := (images.length : Int) with hNdef
  set r : Int := ((j : Int) - (pos + 1)) % N with hrdef
  have hr0 : 0 ≤ r := Int.emod_nonneg _ hNne
  have hrN : r < N := Int.emod_lt_of_pos _ hN
  have hk1 : 1 ≤ r.toNat + 1 := by omega
  have hk2 : r.toNat + 1 ≤ images.length := by omega
  have hcov := hrest (r.toNat + 1) hk1 hk2
  have harg : (pos + ((r.toNat + 1 : Nat) : Int)) % N = (j : Int) := by
    have hcast : ((r.toNat + 1 : Nat) : Int) = r + 1 := by
      push_cast
      omega
    rw [hcast]
    have : pos + (r + 1) = r + (pos + 1) := by ring
    rw [this, hrdef, int_mod_shift]
    have : (j : Int) - (pos + 1) + (pos + 1) = (j : Int) := by ring
    rw [this]
    exact Int.emod_eq_of_lt (by omega) (by rw [hNdef]; exact_mod_cast hj)
  rw [harg] at hcov
  have : ((j : Int)).toNat = j := by omega
  rw [this, List.getD_eq_getElem images "" hj] at hcov
  exact hcov

/-- The per-call contract of `next_wallpaper`: a failed call leaves
`used_images` unchanged; a successful call appends exactly the selected
filename, the selection lies in the directory's pool, and an already-used
filename is returned only when every image of the pool is already used. -/
theorem statefulSelect_spec (allImages : List String) (dir : String)
    (rr0 : RRMap) (used : List String) (hne : allImages ≠ []) :
    ((statefulSelect allImages dir rr0 used).result = none →
      (statefulSelect allImages dir rr0 used).used = used) ∧
    (∀ s, (statefulSelect allImages dir rr0 used).result = some s →
      (statefulSelect allImages dir rr0 used).used = used ++ [s] ∧
      s ∈ allImages ∧ (s ∈ used → ∀ x ∈ allImages, x ∈ used)) := by
  rcases hpr : rrClampPair allImages dir
      (rrResetPair allImages dir (rrInit allImages dir rr0)) with ⟨pos0, rr3⟩
  simp only [statefulSelect, hpr]
  cases hpy : pyGet allImages pos0 with
  | none => exact ⟨fun _ => rfl, fun s hs => by simp at hs⟩
  | some sel0 =>
    rcases hsk : skipUsed allImages used allImages.length pos0 sel0 with ⟨posF, sel⟩
    simp only [hsk]
    refine ⟨fun h => by simp at h, ?_⟩
    intro s hs
    have hssel : s = sel := by
      simpa using hs.symm
    subst hssel
    refine ⟨rfl, ?_, ?_⟩
    · have := skipUsed_mem allImages used hne allImages.length pos0 sel0
        (pyGet_mem allImages pos0 sel0 hpy)
      rwa [hsk] at this
    · intro hsu
      have hin : (skipUsed allImages used allImages.length pos0 sel0).2 ∈ used := by
        rw [hsk]; exact hsu
      exact skipUsed_exhausts allImages used hne pos0 sel0 hin

theorem randomSelect_spec (env : Env) (allImages : List String)
    (used : List String) (hne : allImages ≠ []) :
    ∀ s, (randomSelect env allImages used).result = some s →
      (randomSelect env allImages used).used = used ++ [s] ∧
      s ∈ allImages ∧ (s ∈ used → ∀ x ∈ allImages, x ∈ used) := by
  intro s hs
  unfold randomSelect at hs ⊢
  simp only at hs ⊢
  have hssel : s = (if allImages.filter (fun img => !strMem img used) = []
      then allImages else allImages.filter (fun img => !strMem img used)).getD
        (env.choose (if allImages.filter (fun img => !strMem img used) = []
          then allImages else allImages.filter (fun img => !strMem img used)) %
         (if allImages.filter (fun img => !strMem img used) = []
          then allImages else allImages.filter (fun img => !strMem img used)).length) "" := by
    simpa using hs.symm
  by_cases hav : allImages.filter (fun img => !strMem img used) = []
  · rw [if_pos hav] at hssel ⊢
    have hlen : 0 < allImages.length := List.length_pos.mpr hne
    have hidx : env.choose allImages % allImages.length < allImages.length :=
      Nat.mod_lt _ hlen
    refine ⟨by rw [hssel], ?_, ?_⟩
    · rw [hssel, List.getD_eq_getElem allImages "" hidx]
      exact List.getElem_mem hidx
    · intro _
      intro x hx
      have := (List.filter_eq_nil_iff.mp hav) x hx
      simp only [Bool.not_eq_true'] at this
      simpa using ((strMem_iff x used).mp (by simpa using this))
  · rw [if_neg hav] at hssel ⊢
    have hlen : 0 < (allImages.filter (fun img => !strMem img used)).length :=
      List.length_pos.mpr hav
    have hidx : env.choose (allImages.filter (fun img => !strMem img used)) %
        (allImages.filter (fun img => !strMem img used)).length <
        (allImages.filter (fun img => !strMem img used)).length :=
      Nat.mod_lt _ hlen
    have hmem : s ∈ allImages.filter (fun img => !strMem img used) := by
      rw [hssel, List.getD_eq_getElem _ "" hidx]
      exact List.getElem_mem hidx
    have hflt := List.mem_filter.mp hmem
    refine ⟨by rw [hssel], hflt.1, ?_⟩
    intro hsu
    exact absurd ((strMem_iff s used).mpr hsu) (by simpa using hflt.2)

theorem nextWallpaper_spec (env : Env) (dir : String) (st : Option RRMap)
    (used : List String) :
    ((nextWallpaper env dir st used).result = none →
      (nextWallpaper env dir st used).used = used) ∧
    (∀ s, (nextWallpaper env dir st used).result = some s →
      (nextWallpaper env dir st used).used = used ++ [s] ∧
      s ∈ selPool env dir ∧ (s ∈ used → ∀ x ∈ selPool env dir, x ∈ used)) := by
  by_cases hdir : env.isDir dir = false
  · simp [nextWallpaper, hdir]
  · by_cases hpool : selPool env dir = []
    · simp [nextWallpaper, hdir, hpool]
    · cases st with
      | none =>
        simp only [nextWallpaper, if_neg hdir, if_neg hpool]
        constructor
        · intro hn
          exfalso
          unfold randomSelect at hn
          simp at hn
        · exact randomSelect_spec env (selPool env dir) used hpool
      | some rr0 =>
        have h := statefulSelect_spec (selPool env dir) dir rr0 used hpool
        simp only [nextWallpaper, if_neg hdir, if_neg hpool]
        exact h

theorem selectGo_nodup (env : Env) (dirs : ResolvedDirs) :
    ∀ (idxs : List Nat) (st : Option RRMap) (used : List String),
      used.Nodup →
      used.length + idxs.length ≤ (selPool env dirs.primary).length →
      (selPool env dirs.primary).Nodup →
      (∀ l, dirs.left = some l →
        used.length + idxs.length ≤ (selPool env l).length ∧ (selPool env l).Nodup) →
      (selectGo env dirs idxs st used).used =
        used ++ (selectGo env dirs idxs st used).paths.map Prod.snd ∧
      (selectGo env dirs idxs st used).used.Nodup := by
  intro idxs
  induction idxs with
  | nil =>
    intro st used hnd _ _ _
    exact ⟨by simp [selectGo], by simpa [selectGo] using hnd⟩
  | cons idx rest ih =>
    intro st used hnd hbp hpnd hleft
    have hd : (selPool env (selectDirFor dirs idx)).Nodup ∧
        used.length + (idx :: rest).length ≤
          (selPool env (selectDirFor dirs idx)).length := by
      unfold selectDirFor
      rcases hld : dirs.left with _ | l
      · exact ⟨hpnd, hbp⟩
      · by_cases hodd : idx % 2 = 1
        · simp only [hodd, if_true]
          obtain ⟨hb, hn⟩ := hleft l hld
          exact ⟨hn, hb⟩
        · simp only [hodd, if_false]
          exact ⟨hpnd, hbp⟩
    have spec := nextWallpaper_spec env (selectDirFor dirs idx) st used
    cases hres : (nextWallpaper env (selectDirFor dirs idx) st used).result with
    | none =>
      have hused : (nextWallpaper env (selectDirFor dirs idx) st used).used = used :=
        spec.1 hres
      simp only [selectGo, hres, hused]
      have hbp' : used.length + rest.length ≤ (selPool env dirs.primary).length := by
        simp only [List.length_cons] at hbp
        omega
      have hleft' : ∀ l, dirs.left = some l →
          used.length + rest.length ≤ (selPool env l).length ∧ (selPool env l).Nodup := by
        intro l hl
        obtain ⟨hb, hn⟩ := hleft l hl
        simp only [List.length_cons] at hb
        exact ⟨by omega, hn⟩
      exact ih _ used hnd hbp' hpnd hleft'
    | some s =>
      obtain ⟨husd, hmem, hcol⟩ := spec.2 s hres
      have hfresh : s ∉ used := by
        intro hs
        have hsub : selPool env (selectDirFor dirs idx) ⊆ used := hcol hs
        have hle := (List.subperm_of_subset hd.1 hsub).length_le
        have := hd.2
        simp only [List.length_cons] at this
        omega
      simp only [selectGo, hres, husd]
      have hnd' : (used ++ [s]).Nodup := by
        simp [List.nodup_append, hnd, hfresh]
      have hbp' : (used ++ [s]).length + rest.length ≤ (selPool env dirs.primary).length := by
        simp only [List.length_append, List.length_singleton, List.length_cons,
          List.length_nil] at hbp ⊢
        omega
      have hleft' : ∀ l, dirs.left = some l →
          (used ++ [s]).length + rest.length ≤ (selPool env l).length ∧
            (selPool env l).Nodup := by
        intro l hl
        obtain ⟨hb, hn⟩ := hleft l hl
        simp only [List.length_append, List.length_singleton, List.length_cons,
          List.length_nil] at hb ⊢
        exact ⟨by omega, hn⟩
      obtain ⟨ihu, ihnd⟩ := ih _ (used ++ [s]) hnd' hbp' hpnd hleft'
      refine ⟨?_, ihnd⟩
      rw [ihu]
      simp

/-- C2: multi-monitor no-duplication-when-possible.  When each resolved
directory's pool is duplicate-free and at least as large as the monitor
count, one `select_wallpapers` run returns pairwise-distinct filenames; and
in any single `next_wallpaper` call an already-used filename is returned only
when every image of that directory's pool is already in `used_images`. -/
theorem c2_no_duplicates (env : Env) (dirs : ResolvedDirs) (m : Nat)
    (st : Option RRMap)
    (hp1 : (selPool env dirs.primary).Nodup)
    (hp2 : m ≤ (selPool env dirs.primary).length)
    (hl : ∀ l, dirs.left = some l →
      (selPool env l).Nodup ∧ m ≤ (selPool env l).length) :
    ((selectWallpapers env dirs m st).paths.map Prod.snd).Nodup ∧
    (∀ dir st' used s, (nextWallpaper env dir st' used).result = some s →
      s ∈ used → ∀ x ∈ selPool env dir, x ∈ used) := by
  constructor
  · have h := selectGo_nodup env dirs (List.range m) st []
      List.nodup_nil (by simpa using hp2) hp1
      (by
        intro l hlj
        obtain ⟨hn, hb⟩ := hl l hlj
        exact ⟨by simpa using hb, hn⟩)
    obtain ⟨hu, hnd⟩ := h
    rw [hu] at hnd
    simpa [selectWallpapers] using hnd
  · intro dir st' used s hres hsu
    exact ((nextWallpaper_spec env dir st' used).2 s hres).2.2 hsu

/-- C2 witness: two monitors drawing from `primary` and `left` (both with the
three-image pool) select distinct filenames. -/
theorem c2_no_duplicates_witness :
    ((selectWallpapers envW ⟨"/w", some "/l"⟩ 2 (some [])).paths.map Prod.snd).Nodup ∧
    (selectWallpapers envW ⟨"/w", some "/l"⟩ 2 (some [])).paths =
      [("/w", "a.jpg"), ("/l", "b.jpg")] := by
  refine ⟨(c2_no_duplicates envW ⟨"/w", some "/l"⟩ 2 (some []) (by decide) (by decide)
    (by
      intro l hlj
      injection hlj with h
      subst h
      exact ⟨by decide, by decide⟩)).1, ?_⟩
  decide

/-! ### State persistence (C4, C5, C6) -/

/-- C4: `load` recovers from a missing, unreadable, or malformed state file,
but NOT from every schema-invalid one.  Its docstring promises "Returns
default state if file doesn't exist or is corrupted" and never `None`, yet a
readable state file holding the valid JSON document `null` (or `3`, `true` —
any non-container) makes `_validate`'s `field not in state` raise `TypeError`,
which `load` does not catch: the exception escapes instead of quarantining
the file and returning a fresh state.  Decode errors, absent files and
permission errors do recover as documented. -/
theorem c4_load_totality_bug :
    load "/home/u/.local/share/state.json" "20260101_090000" (.parsed .null) =
      .error () ∧
    load "/home/u/.local/share/state.json" "20260101_090000" (.parsed (.num 3)) =
      .error () ∧
    load "/home/u/.local/share/state.json" "20260101_090000" .decodeError =
      .ok ⟨initState, some "/home/u/.local/share/state.corrupted.20260101_090000"⟩ ∧
    load "/home/u/.local/share/state.json" "20260101_090000" .absent =
      .ok ⟨initState, none⟩ ∧
    load "/home/u/.local/share/state.json" "20260101_090000" .permissionDenied =
      .ok ⟨initState, none⟩ := by
  refine ⟨rfl, rfl, rfl, rfl, rfl⟩

/-- C5: `save` writes to the sibling temp file only after the non-blocking
exclusive lock is acquired; a busy lock makes it return failure with nothing
written; any I/O failure after the temp file exists removes the temp file;
the rename onto the real state file happens exactly on the success path, so
every failure leaves the pre-existing real file untouched. -/
theorem c5_save_failure_safe (env : SaveEnv) :
    ((save env).1 = true ↔ SaveEvent.renameTempToReal ∈ (save env).2) ∧
    (env.lockFree = false → (save env).1 = false) ∧
    (env.lockFree = false → SaveEvent.writeTemp ∉ (save env).2) ∧
    ((save env).1 = false → SaveEvent.renameTempToReal ∉ (save env).2) ∧
    (env.mkdirOk = true → env.openOk = true → env.lockFree = true →
      env.writeOk = false → SaveEvent.unlinkTemp ∈ (save env).2) ∧
    (env.mkdirOk = true → env.openOk = true → env.lockFree = true →
      env.writeOk = true → env.renameOk = false →
      SaveEvent.unlinkTemp ∈ (save env).2) ∧
    isOrderedSub (save env).2
      [SaveEvent.mkdirParents, SaveEvent.openTemp, SaveEvent.lockTemp,
       SaveEvent.writeTemp, SaveEvent.unlockTemp, SaveEvent.renameTempToReal,
       SaveEvent.unlinkTemp] = true := by
  obtain ⟨m, o, l, w, r⟩ := env
  refine ⟨?_, ?_, ?_, ?_, ?_, ?_, ?_⟩ <;>
    (cases m <;> cases o <;> cases l <;> cases w <;> cases r <;> decide)

/-- C5 witness: a save hitting a busy lock fails and never renames onto the
real state file. -/
theorem c5_save_failure_safe_witness :
    (save ⟨true, true, false, true, true⟩).1 = false ∧
    SaveEvent.renameTempToReal ∉ (save ⟨true, true, false, true, true⟩).2 := by
  have h := c5_save_failure_safe ⟨true, true, false, true, true⟩
  exact ⟨h.2.1 rfl, h.2.2.2.1 (h.2.1 rfl)⟩

/-- C6: persistence round-trip.  For every schema-valid state document, a
successful `save` followed by `load` returns exactly the saved document —
every field (`version`, `last_run`, `current_wallpapers`, `round_robin`)
identical — with no corruption backup. -/
theorem c6_round_trip (env : SaveEnv) (path ts : String) (j : JValue)
    (prev : ReadResult) (hvalid : validateState j = .ok true)
    (hsucc : (save env).1 = true) :
    saveThenLoad env path ts j prev = .ok ⟨j, none⟩ := by
  unfold saveThenLoad
  rw [if_pos hsucc]
  simp only [load, hvalid]

/-- C6 witness: a state with two current wallpapers and one round-robin
entry survives the round trip unchanged. -/
theorem c6_round_trip_witness :
    validateState jPop = .ok true ∧
    saveThenLoad ⟨true, true, true, true, true⟩ "/s/state.json" "ts" jPop .absent =
      .ok ⟨jPop, none⟩ :=
  ⟨rfl, c6_round_trip ⟨true, true, true, true, true⟩ "/s/state.json" "ts" jPop
    .absent rfl rfl⟩

/-! ### The update cycle (C9) and cleanup (C10) -/

/-- C9: the claim orders one run as Resolve, Select, Apply, UpdateState,
Persist.  The code updates the state BEFORE applying wallpapers ("Update
state before setting wallpapers"): on a single-monitor x11 run with a
complete selection the trace is resolve, select, update, apply, persist —
update strictly precedes apply, so the trace is not a subsequence of the
claimed order. -/
theorem c9_claim_counterexample :
    mainTrace ⟨true, false, ["m"], "x11", ["p"]⟩ =
      [.resolveDirs, .selectW, .updateSt, .applyWp, .persistSt] ∧
    isOrderedSub (mainTrace ⟨true, false, ["m"], "x11", ["p"]⟩)
      [.resolveDirs, .selectW, .applyWp, .updateSt, .persistSt] = false ∧
    (mainTrace ⟨true, false, ["m"], "x11", ["p"]⟩).indexOf RunEvent.updateSt <
      (mainTrace ⟨true, false, ["m"], "x11", ["p"]⟩).indexOf RunEvent.applyWp := by
  refine ⟨by decide, by decide, by decide⟩

/-- C9 (amended): one run proceeds in the order Resolve, Select, UpdateState
(with optional Cleanup), Apply, Persist; UpdateState and Persist are skipped
entirely when state tracking is disabled; and on a selection shortfall
(fewer selected paths than monitors) neither Apply nor UpdateState nor
Persist runs. -/
theorem c9_update_cycle (env : RunEnv) :
    isOrderedSub (mainTrace env)
      [RunEvent.resolveDirs, RunEvent.selectW, RunEvent.updateSt,
       RunEvent.cleanupSt, RunEvent.applyWp, RunEvent.persistSt] = true ∧
    (env.stateTracking = false →
      RunEvent.updateSt ∉ mainTrace env ∧ RunEvent.persistSt ∉ mainTrace env) ∧
    (env.selected.length ≠ env.monitors.length →
      RunEvent.applyWp ∉ mainTrace env ∧ RunEvent.updateSt ∉ mainTrace env ∧
      RunEvent.persistSt ∉ mainTrace env) := by
  obtain ⟨st, ac, mon, ds, sel⟩ := env
  simp only [mainTrace]
  by_cases h0 : mon.length = 0 <;>
    by_cases h1 : sel.length ≠ mon.length <;>
    cases st <;> cases ac <;>
    by_cases h2 : ds = "wayland" ∨ ds = "x11" <;>
    simp [h0, h1, h2] <;>
    decide

/-- C9 witness: with two monitors but only one selected path, no apply,
state update or persist event occurs. -/
theorem c9_update_cycle_witness :
    RunEvent.applyWp ∉ mainTrace ⟨true, true, ["m1", "m2"], "x11", ["p"]⟩ ∧
    RunEvent.persistSt ∉ mainTrace ⟨true, true, ["m1", "m2"], "x11", ["p"]⟩ := by
  have h := (c9_update_cycle ⟨true, true, ["m1", "m2"], "x11", ["p"]⟩).2.2 (by decide)
  exact ⟨h.1, h.2.2⟩

/-- C10: the claim says `main` invokes the cleanup on every run when
`auto_cleanup` is enabled.  On a run with state tracking disabled (and
`auto_cleanup` enabled in the configuration) no cleanup happens; it is also
skipped on a selection shortfall. -/
theorem c10_claim_counterexample :
    RunEvent.cleanupSt ∉ mainTrace ⟨false, true, ["m"], "x11", ["p"]⟩ ∧
    RunEvent.cleanupSt ∉ mainTrace ⟨true, true, ["m1", "m2"], "x11", ["p"]⟩ := by
  refine ⟨by decide, by decide⟩

/-- C10 (amended): `cleanup_old_entries` either leaves the state entirely
unchanged (null/missing, empty, unparseable, or recent `last_run`) or
replaces the whole `round_robin` mapping with the empty mapping — never a
proper subset — and always preserves `version`, `last_run` and
`current_wallpapers`; `main` invokes it exactly on state-tracking runs with
`auto_cleanup` enabled whose selection matched a nonzero monitor count, and
only after `update_state` has already run. -/
theorem c10_cleanup_all_or_nothing (isOld : String → Option Bool) (st : PState)
    (env : RunEnv) :
    (cleanupOldEntries isOld st = st ∨
      cleanupOldEntries isOld st = { st with round_robin := [] }) ∧
    (cleanupOldEntries isOld st).version = st.version ∧
    (cleanupOldEntries isOld st).last_run = st.last_run ∧
    (cleanupOldEntries isOld st).current_wallpapers = st.current_wallpapers ∧
    (RunEvent.cleanupSt ∈ mainTrace env ↔
      env.stateTracking = true ∧ env.autoCleanup = true ∧
      env.monitors.length ≠ 0 ∧ env.selected.length = env.monitors.length) ∧
    (RunEvent.cleanupSt ∈ mainTrace env →
      (mainTrace env).indexOf RunEvent.updateSt <
        (mainTrace env).indexOf RunEvent.cleanupSt) := by
  have hc : cleanupOldEntries isOld st = st ∨
      cleanupOldEntries isOld st = { st with round_robin := [] } := by
    unfold cleanupOldEntries
    cases hlr : st.last_run with
    | none => exact Or.inl rfl
    | some ts =>
      dsimp only
      by_cases hts : ts = ""
      · rw [if_pos hts]; exact Or.inl rfl
      · rw [if_neg hts]
        cases isOld ts with
        | none => exact Or.inl rfl
        | some b => cases b <;> [exact Or.inl rfl; exact Or.inr rfl]
  refine ⟨hc, ?_, ?_, ?_, ?_, ?_⟩
  · rcases hc with h | h <;> rw [h]
  · rcases hc with h | h <;> rw [h]
  · rcases hc with h | h <;> rw [h]
  · obtain ⟨stk, ac, mon, ds, sel⟩ := env
    simp only [mainTrace]
    by_cases h0 : mon.length = 0 <;>
      by_cases h1 : sel.length ≠ mon.length <;>
      cases stk <;> cases ac <;>
      by_cases h2 : ds = "wayland" ∨ ds = "x11" <;>
      simp [h0, h1, h2]
    all_goals omega
  · obtain ⟨stk, ac, mon, ds, sel⟩ := env
    simp only [mainTrace]
    by_cases h0 : mon.length = 0 <;>
      by_cases h1 : sel.length ≠ mon.length <;>
      cases stk <;> cases ac <;>
      by_cases h2 : ds = "wayland" ∨ ds = "x11" <;>
      simp [h0, h1, h2]

/-- C10 witness: on a complete state-tracking x11 run with auto-cleanup, the
cleanup event occurs after the state update. -/
theorem c10_cleanup_all_or_nothing_witness :
    (mainTrace ⟨true, true, ["m"], "x11", ["p"]⟩).indexOf RunEvent.updateSt <
      (mainTrace ⟨true, true, ["m"], "x11", ["p"]⟩).indexOf RunEvent.cleanupSt :=
  (c10_cleanup_all_or_nothing (fun _ => some true) ⟨"1.0", none, [], []⟩
    ⟨true, true, ["m"], "x11", ["p"]⟩).2.2.2.2.2 (by decide)

end WallpaperChanger
